import Mathlib

/-!
# Verification of `scripts/analyze_benchmark_results.py`

A shallow embedding of the benchmark-comparison script.  Python floats are
modelled as exact rationals (`ℚ`); every numeric literal appearing in the
claims is exactly representable in binary64 and the comparisons at stake are
far from the rounding boundaries.  A Python exception escaping to the top
level is modelled by `Option`/`none`.  The regular expressions of the script
are embedded by explicit leftmost/greedy backtracking matchers over
`List Char`, restricted to the ASCII fragment of the character classes
(`\s`, `\w`, `\d`) that the benchmark names and times exercise.
-/

set_option maxRecDepth 2000

attribute [local semireducible] Rat.mul Rat.add Rat.sub Rat.inv

namespace BenchAnalyze

/-- ASCII fragment of the regex class `\s`, also the separator set of
Python's `str.split()` with no arguments. -/
def isSpaceChar (c : Char) : Bool :=
  c == ' ' || c == '\t' || c == '\n' || c == '\r' || c == '\x0b' || c == '\x0c'

/-- The regex class `\S`. -/
def isNonSpaceChar (c : Char) : Bool := !(isSpaceChar c)

/-- ASCII fragment of the regex class `\w` (the script uses `[\w_]+`). -/
def isWordChar (c : Char) : Bool := c.isAlphanum || c == '_'

/-- The regex class `[\d.]` used by `parse_time_to_ns`. -/
def isDigitDot (c : Char) : Bool := c.isDigit || c == '.'

/-- Python `str.split()` (split on whitespace runs, dropping empty pieces),
with an accumulator for the token currently being read (reversed). -/
def pySplitAux : List Char → List Char → List (List Char)
  | [], acc => if acc.isEmpty then [] else [acc.reverse]
  | c :: cs, acc =>
    if isSpaceChar c then
      if acc.isEmpty then pySplitAux cs [] else acc.reverse :: pySplitAux cs []
    else pySplitAux cs (c :: acc)

/-- Python `str.split()` with no arguments. -/
def pySplit (l : List Char) : List (List Char) := pySplitAux l []

/-- Backtracking ladder for `re.match(r'([\d.]+)\s*(\S+)', s)`: try the
group-1 length `k`, then `k-1`, …, down to 1.  For each candidate length the
greedy `\s*` and `\S+` are forced (whitespace and non-whitespace are
disjoint, so shortening them can never create a match). -/
def tryNum : List Char → Nat → Option (List Char × List Char)
  | _, 0 => none
  | s, k + 1 =>
    if ((s.drop (k + 1)).dropWhile isSpaceChar).isEmpty then tryNum s k
    else some (s.take (k + 1),
      ((s.drop (k + 1)).dropWhile isSpaceChar).takeWhile isNonSpaceChar)

/-- `re.match(r'([\d.]+)\s*(\S+)', s)`, returning groups 1 and 2.  The
greedy `[\d.]+` starts from the maximal run of digit/dot characters. -/
def matchTimeRegex (s : List Char) : Option (List Char × List Char) :=
  tryNum s (s.takeWhile isDigitDot).length

/-- Digit string to number (most significant first). -/
def digitsToNat (l : List Char) : Nat :=
  l.foldl (fun a c => 10 * a + (c.toNat - 48)) 0

/-- Value of a string made of digits and at most one dot. -/
def pyFloatVal (s : List Char) : ℚ :=
  (digitsToNat (s.takeWhile (fun c => c != '.')) : ℚ) +
    (digitsToNat ((s.dropWhile (fun c => c != '.')).drop 1) : ℚ) /
      (10 : ℚ) ^ ((s.dropWhile (fun c => c != '.')).drop 1).length

/-- Python `float()` restricted to its use site: the argument is a nonempty
string over `[\d.]`.  Such a string is a valid float literal iff it contains
at least one digit and at most one dot; otherwise `float()` raises
`ValueError`, modelled by `none`. -/
def pyFloat (s : List Char) : Option ℚ :=
  if s.any Char.isDigit ∧ s.count '.' ≤ 1 then some (pyFloatVal s) else none

/-- The `conversions` dictionary of `parse_time_to_ns` with its
`.get(unit, 1.0)` default.  The microsecond key in the source file is the
mojibake three-character spelling `"Âµs"` (U+00C2 U+00B5 's'), not `"µs"`. -/
def conversions (unit : String) : ℚ :=
  if unit = "ns" then 1
  else if unit = "Âµs" then 1000
  else if unit = "us" then 1000
  else if unit = "ms" then 1000000
  else if unit = "s" then 1000000000
  else 1

/-- `parse_time_to_ns`.  `some 0` is the explicit `return 0.0` on a failed
match; `none` is an uncaught `ValueError` from `float()`. -/
def parse_time_to_ns (time_str : String) : Option ℚ :=
  match matchTimeRegex time_str.data with
  | none => some 0
  | some (g1, g2) =>
    match pyFloat g1 with
    | none => none
    | some v => some (v * conversions (String.mk g2))

/-- Round half to even (Python's float formatting tie rule). -/
def roundHalfEven (q : ℚ) : ℤ :=
  if q - (q.floor : ℚ) < 1 / 2 then q.floor
  else if 1 / 2 < q - (q.floor : ℚ) then q.floor + 1
  else if q.floor % 2 = 0 then q.floor else q.floor + 1

/-- `f"{q:.2f}"` for a nonnegative rational. -/
def fixed2Of (q : ℚ) : String :=
  Nat.repr ((roundHalfEven (q * 100)).toNat / 100) ++ "." ++
    (if (roundHalfEven (q * 100)).toNat % 100 < 10 then "0" else "") ++
    Nat.repr ((roundHalfEven (q * 100)).toNat % 100)

/-- `f"{q:.2f}"`. -/
def formatFixed2 (q : ℚ) : String :=
  if q < 0 then "-" ++ fixed2Of (-q) else fixed2Of q

/-- `calculate_speedup`.  The two label lines of the source contain the
mojibake pair U+00C3 U+2014 where the multiplication sign was intended. -/
def calculate_speedup (main_ns current_ns : ℚ) : ℚ × String :=
  if main_ns = 0 ∨ current_ns = 0 then (0, "N/A")
  else if 1 < main_ns / current_ns then
    (main_ns / current_ns, formatFixed2 (main_ns / current_ns) ++ "Ã— faster")
  else if main_ns / current_ns < 1 then
    (main_ns / current_ns,
      formatFixed2 (1 / (main_ns / current_ns)) ++ "Ã— slower (regression)")
  else (1, "Same")

/-- One parsed record: the stored `time` and `full_time` strings. -/
structure BenchRecord where
  time : String
  full_time : String
deriving DecidableEq, Repr

/-- Tail of the benchmark pattern after group 1: `\s+time:\s+\[([^\]]+)\]`.
Returns group 2 and the remaining input after the closing bracket.  Each
greedy piece is forced: shortening `\s+` leaves a whitespace character where
a literal is required, and shortening `[^\]]+` leaves a non-`]` character
where `]` is required. -/
def matchTail (r : List Char) : Option (List Char × List Char) :=
  if (r.takeWhile isSpaceChar).isEmpty then none
  else
    match r.dropWhile isSpaceChar with
    | 't' :: 'i' :: 'm' :: 'e' :: ':' :: r2 =>
      if (r2.takeWhile isSpaceChar).isEmpty then none
      else
        match r2.dropWhile isSpaceChar with
        | '[' :: r4 =>
          if (r4.takeWhile (fun c => c != ']')).isEmpty then none
          else
            match r4.dropWhile (fun c => c != ']') with
            | ']' :: r6 => some (r4.takeWhile (fun c => c != ']'), r6)
            | _ => none
        | _ => none
    | _ => none

/-- Backtracking ladder for the part `/\S+/\d+` of the first alternative,
after a candidate first `\S+` has been fixed: try the second `\S+` at length
`j`, `j-1`, …, 1.  `\d+` is forced maximal (a shorter `\d+` leaves a digit
where the tail's `\s+` is required).  Returns the consumed length together
with group 2 and the remainder. -/
def alt1TrySecond (s2 : List Char) : Nat → Option (Nat × List Char × List Char)
  | 0 => none
  | j + 1 =>
    match s2.drop (j + 1) with
    | c :: s3 =>
      if c = '/' then
        if (s3.takeWhile Char.isDigit).isEmpty then alt1TrySecond s2 j
        else
          match matchTail (s3.drop (s3.takeWhile Char.isDigit).length) with
          | some (g2, rem) =>
            some (j + 1 + 1 + (s3.takeWhile Char.isDigit).length, g2, rem)
          | none => alt1TrySecond s2 j
      else alt1TrySecond s2 j
    | [] => alt1TrySecond s2 j

/-- Backtracking ladder for the first alternative `\S+/\S+/\d+` followed by
the tail: try the first `\S+` at length `j`, `j-1`, …, 1. -/
def alt1TryFirst (s : List Char) : Nat → Option (Nat × List Char × List Char)
  | 0 => none
  | j + 1 =>
    match s.drop (j + 1) with
    | c :: s2 =>
      if c = '/' then
        match alt1TrySecond s2 (s2.takeWhile isNonSpaceChar).length with
        | some (len2, g2, rem) => some (j + 1 + 1 + len2, g2, rem)
        | none => alt1TryFirst s j
      else alt1TryFirst s j
    | [] => alt1TryFirst s j

/-- First alternative of the benchmark pattern anchored at the start of
`s`, greedy from the maximal `\S` run. -/
def matchAlt1 (s : List Char) : Option (Nat × List Char × List Char) :=
  alt1TryFirst s (s.takeWhile isNonSpaceChar).length

/-- Backtracking ladder for the second alternative `[\w_]+` followed by the
tail. -/
def alt2Try (s : List Char) : Nat → Option (Nat × List Char × List Char)
  | 0 => none
  | j + 1 =>
    match matchTail (s.drop (j + 1)) with
    | some (g2, rem) => some (j + 1, g2, rem)
    | none => alt2Try s j

/-- Second alternative of the benchmark pattern anchored at the start of
`s`, greedy from the maximal `\w` run. -/
def matchAlt2 (s : List Char) : Option (Nat × List Char × List Char) :=
  alt2Try s (s.takeWhile isWordChar).length

/-- Attempt of `(\S+/\S+/\d+|[\w_]+)\s+time:\s+\[([^\]]+)\]` anchored at
the start of `s`: the first alternative with all its backtracking, then the
second.  Returns groups 1 and 2 and the remainder after the match. -/
def matchAt (s : List Char) : Option (List Char × List Char × List Char) :=
  match matchAlt1 s with
  | some (len, g2, rem) => some (s.take len, g2, rem)
  | none =>
    match matchAlt2 s with
    | some (len, g2, rem) => some (s.take len, g2, rem)
    | none => none

/-- `re.finditer`: try each start position left to right, resuming after
each (non-overlapping) match.  Every successful match consumes at least the
eleven characters of `_ time: [_]`, so fuel equal to the input length never
runs out. -/
def scanFuel : Nat → List Char → List (List Char × List Char)
  | 0, _ => []
  | _ + 1, [] => []
  | fuel + 1, c :: cs =>
    match matchAt (c :: cs) with
    | some (g1, g2, rem) => (g1, g2) :: scanFuel fuel rem
    | none => scanFuel fuel cs

/-- All matches of the benchmark pattern, left to right. -/
def scan (s : List Char) : List (List Char × List Char) := scanFuel s.length s

/-- Python dict assignment `d[k] = v`: overwrite in place, else append. -/
def setKey : List (String × BenchRecord) → String → BenchRecord → List (String × BenchRecord)
  | [], k, v => [(k, v)]
  | (k', v') :: rest, k, v =>
    if k' = k then (k, v) :: rest else (k', v') :: setKey rest k v

/-- `parse_criterion_output` on file content: for every match, split the
bracketed text on whitespace; if it has at least two tokens store the second
token as `time` and the whole bracketed text as `full_time`. -/
def parse_criterion_output (content : String) : List (String × BenchRecord) :=
  (scan content.data).foldl
    (fun m gg =>
      match pySplit gg.2 with
      | _ :: b :: _ => setKey m (String.mk gg.1) ⟨String.mk b, String.mk gg.2⟩
      | _ => m)
    []

/-- Python dict lookup. -/
def findBench : List (String × BenchRecord) → String → Option BenchRecord
  | [], _ => none
  | (k, v) :: rest, b => if k = b then some v else findBench rest b

/-- `results.get(bench, {}).get('time', 'N/A')`. -/
def timeOf (res : List (String × BenchRecord)) (bench : String) : String :=
  ((findBench res bench).map BenchRecord.time).getD "N/A"

/-- Improvement marker of the source (mojibake of a check mark). -/
def improvMark : String := "âœ…"

/-- Regression marker of the source (mojibake of a cross mark). -/
def regressMark : String := "âŒ"

/-- Neutral marker of the source (mojibake of a dash). -/
def neutralMark : String := "âž–"

/-- The marker-prefixed speedup cell for a benchmark present on both
sides. -/
def speedupCell (mns cns : ℚ) : String :=
  if 11 / 10 < (calculate_speedup mns cns).1 then
    improvMark ++ " " ++ (calculate_speedup mns cns).2
  else if (calculate_speedup mns cns).1 < 9 / 10 then
    regressMark ++ " " ++ (calculate_speedup mns cns).2
  else neutralMark ++ " " ++ (calculate_speedup mns cns).2

/-- One table row of the report (with its trailing newline), or `none`
when `parse_time_to_ns` raises. -/
def rowLine (mRes cRes : List (String × BenchRecord)) (bench : String) : Option String :=
  if timeOf mRes bench ≠ "N/A" ∧ timeOf cRes bench ≠ "N/A" then
    match parse_time_to_ns (timeOf mRes bench), parse_time_to_ns (timeOf cRes bench) with
    | some mns, some cns =>
      some ("| `" ++ bench ++ "` | " ++ timeOf mRes bench ++ " | " ++ timeOf cRes bench ++
        " | " ++ speedupCell mns cns ++ " |\n")
    | _, _ => none
  else
    some ("| `" ++ bench ++ "` | " ++ timeOf mRes bench ++ " | " ++ timeOf cRes bench ++
      " | " ++ "N/A" ++ " |\n")

/-- Python substring test `sub in hay`. -/
def containsSubstr (hay sub : String) : Bool := decide (sub.data <:+: hay.data)

/-- The keys of the `categories` dict, in declaration order. -/
def categoryNames : List String :=
  ["prefix_fast_path", "bulk_insertion", "cow_clone", "pattern_matching",
   "rule_matching", "type_lookup", "evaluation", "scalability", "other"]

/-- The category a benchmark name is filed under: the first category whose
tag occurs in the name, else `other`. -/
def chooseCat (bench : String) : String :=
  match categoryNames.find? (fun cat => containsSubstr bench cat) with
  | some c => c
  | none => "other"

/-- `categories[key].append(bench)`. -/
def appendAt (cats : List (String × List String)) (key bench : String) :
    List (String × List String) :=
  cats.map (fun kv => if kv.1 = key then (kv.1, kv.2 ++ [bench]) else kv)

/-- The categorization loop of `main`. -/
def categorize (benches : List String) : List (String × List String) :=
  benches.foldl (fun cats b => appendAt cats (chooseCat b) b)
    (categoryNames.map (fun c => (c, [])))

/-- `sorted(set(main_results.keys()) | set(current_results.keys()))`.
String order in Lean is code-point lexicographic, as in Python. -/
def allBenchmarks (mRes cRes : List (String × BenchRecord)) : List String :=
  List.insertionSort (· ≤ ·) ((mRes.map Prod.fst ++ cRes.map Prod.fst).dedup)

/-- Python `str.title()` on ASCII text. -/
def pyTitleAux : Bool → List Char → List Char
  | _, [] => []
  | prev, c :: cs =>
    (if c.isAlpha then (if prev then c.toLower else c.toUpper) else c) ::
      pyTitleAux c.isAlpha cs

/-- Python `str.title()`. -/
def pyTitle (s : String) : String := String.mk (pyTitleAux false s.data)

/-- `category.replace('_', ' ')`. -/
def underscoreToSpace (s : String) : String :=
  String.mk (s.data.map fun c => if c = '_' then ' ' else c)

/-- The two fixed table header lines. -/
def tableHeader : String :=
  "| Benchmark | Main Branch | Current Branch | Speedup |\n|-----------|-------------|----------------|---------|\n"

/-- All rows of one category table, concatenated. -/
def rowsFor (mRes cRes : List (String × BenchRecord)) : List String → Option String
  | [] => some ""
  | b :: bs =>
    match rowLine mRes cRes b, rowsFor mRes cRes bs with
    | some r, some rest => some (r ++ rest)
    | _, _ => none

/-- One category section of the report; empty categories print nothing. -/
def sectionFor (mRes cRes : List (String × BenchRecord)) (cat : String)
    (benches : List String) : Option String :=
  if benches.isEmpty then some ""
  else
    match rowsFor mRes cRes benches with
    | some rows =>
      some ("## " ++ pyTitle (underscoreToSpace cat) ++ "\n\n" ++ tableHeader ++ rows ++ "\n")
    | none => none

/-- All category sections, in declaration order. -/
def sectionsFor (mRes cRes : List (String × BenchRecord)) :
    List (String × List String) → Option String
  | [] => some ""
  | (cat, bs) :: rest =>
    match sectionFor mRes cRes cat bs, sectionsFor mRes cRes rest with
    | some s, some r => some (s ++ r)
    | _, _ => none

/-- The summary loop: counts (improvements, regressions, similar). -/
def summaryAux (mRes cRes : List (String × BenchRecord)) :
    Nat × Nat × Nat → List String → Option (Nat × Nat × Nat)
  | acc, [] => some acc
  | acc, b :: bs =>
    if timeOf mRes b ≠ "N/A" ∧ timeOf cRes b ≠ "N/A" then
      match parse_time_to_ns (timeOf mRes b), parse_time_to_ns (timeOf cRes b) with
      | some mns, some cns =>
        if 11 / 10 < (calculate_speedup mns cns).1 then
          summaryAux mRes cRes (acc.1 + 1, acc.2.1, acc.2.2) bs
        else if (calculate_speedup mns cns).1 < 9 / 10 then
          summaryAux mRes cRes (acc.1, acc.2.1 + 1, acc.2.2) bs
        else summaryAux mRes cRes (acc.1, acc.2.1, acc.2.2 + 1) bs
      | _, _ => none
    else summaryAux mRes cRes acc bs

/-- Summary counts over a list of benchmark names. -/
def summaryCounts (mRes cRes : List (String × BenchRecord)) (benches : List String) :
    Option (Nat × Nat × Nat) :=
  summaryAux mRes cRes (0, 0, 0) benches

/-- The warning line printed when regressions were counted (mojibake of the
warning sign; the final byte of the emoji was lost in the corruption). -/
def warnLine : String :=
  "\nâš ï¸ **WARNING**: Performance regressions detected!\n"

/-- The success line printed when improvements but no regressions were
counted (mojibake of the party popper). -/
def successLine : String :=
  "\nðŸŽ‰ **Success**: Performance improvements detected!\n"

/-- The summary block of the report. -/
def summaryText (counts : Nat × Nat × Nat) : String :=
  "## Summary\n\n" ++
  "- **Total benchmarks**: " ++ Nat.repr (counts.1 + counts.2.1 + counts.2.2) ++ "\n" ++
  "- **Improvements** (>10% faster): " ++ Nat.repr counts.1 ++ " " ++ improvMark ++ "\n" ++
  "- **Regressions** (>10% slower): " ++ Nat.repr counts.2.1 ++ " " ++ regressMark ++ "\n" ++
  "- **Similar** (Â±10%): " ++ Nat.repr counts.2.2 ++ " " ++ neutralMark ++ "\n" ++
  (if 0 < counts.2.1 then warnLine else if 0 < counts.1 then successLine else "")

/-- The whole markdown document written to standard output, or `none` when
an exception escapes. -/
def genReport (mainFile currentFile mainContent currentContent : String) : Option String :=
  match
    sectionsFor (parse_criterion_output mainContent) (parse_criterion_output currentContent)
      (categorize (allBenchmarks (parse_criterion_output mainContent)
        (parse_criterion_output currentContent))),
    summaryCounts (parse_criterion_output mainContent) (parse_criterion_output currentContent)
      (allBenchmarks (parse_criterion_output mainContent)
        (parse_criterion_output currentContent)) with
  | some secs, some counts =>
    some ("# Branch Comparison Benchmark Report\n\n" ++
          "**Main Branch Results**: `" ++ mainFile ++ "`\n" ++
          "**Current Branch Results**: `" ++ currentFile ++ "`\n\n" ++
          secs ++ summaryText counts)
  | _, _ => none

/-- Outcome of one process invocation. -/
structure ProcResult where
  exitCode : Nat
  stdout : String
  stderr : String
deriving DecidableEq, Repr

/-- The usage message printed to the error stream. -/
def usageLine : String :=
  "Usage: python3 analyze_benchmark_results.py main_results.txt current_results.txt\n"

/-- `main`: `argv` is `sys.argv` (script name first); `fs` maps a path to
its content when readable.  `none` models an uncaught exception (unreadable
file, or a `ValueError` from `parse_time_to_ns`). -/
def runMain (argv : List String) (fs : String → Option String) : Option ProcResult :=
  match argv with
  | [_, mainFile, currentFile] =>
    match fs mainFile, fs currentFile with
    | some mc, some cc =>
      match genReport mainFile currentFile mc cc with
      | some out => some ⟨0, out, ""⟩
      | none => none
    | _, _ => none
  | _ => some ⟨1, "", usageLine⟩

/-- The fixed text between group 1 and group 2 of a benchmark line. -/
def sepChars : List Char := [' ', 't', 'i', 'm', 'e', ':', ' ', '[']

/-- A single benchmark line `<name> time: [<inner>]`. -/
def mkLine (name inner : List Char) : String :=
  String.mk (name ++ (sepChars ++ (inner ++ [']'])))

/-- Well-formed benchmark name: a bare identifier, or `tok/tok/digits` with
slash-free whitespace-free tokens (the two alternatives of group 1). -/
def WFName (name : List Char) : Prop :=
  (name ≠ [] ∧ ∀ c ∈ name, isWordChar c = true) ∨
  (∃ t1 t2 ds, name = t1 ++ '/' :: (t2 ++ '/' :: ds) ∧
    t1 ≠ [] ∧ t2 ≠ [] ∧ ds ≠ [] ∧
    (∀ c ∈ t1, isNonSpaceChar c = true ∧ c ≠ '/') ∧
    (∀ c ∈ t2, isNonSpaceChar c = true ∧ c ≠ '/') ∧
    (∀ c ∈ ds, c.isDigit = true))

/-- Well-formed time token: nonempty, whitespace-free, bracket-free. -/
def WFTimeToken (t : List Char) : Prop :=
  t ≠ [] ∧ ∀ c ∈ t, isNonSpaceChar c = true ∧ c ≠ ']'

/-- The main-branch file of the end-to-end example of the specification. -/
def mainC1 : String := "foo/bar/10 time: [10 ns 12 ns 14 ns]"

/-- The current-branch file of the end-to-end example of the specification. -/
def currC1 : String := "foo/bar/10 time: [5 ns 6 ns 7 ns]"

/-- A main-branch file whose stored time normalizes to zero. -/
def mainC6 : String := "x time: [q0 b c]"

/-- A current-branch file whose stored time normalizes to 6 ns. -/
def currC6 : String := "x time: [5ns 6ns 7ns]"

/-- File content whose stored time token `1.2.3ns` makes `float()` raise. -/
def poisoned : String := "x time: [a 1.2.3ns c]"

/-- The report produced from `mainC1`/`currC1`. -/
def reportC1 : String :=
  "# Branch Comparison Benchmark Report\n\n**Main Branch Results**: `m.txt`\n**Current Branch Results**: `c.txt`\n\n## Other\n\n| Benchmark | Main Branch | Current Branch | Speedup |\n|-----------|-------------|----------------|---------|\n| `foo/bar/10` | ns | ns | âŒ N/A |\n\n## Summary\n\n- **Total benchmarks**: 1\n- **Improvements** (>10% faster): 0 âœ…\n- **Regressions** (>10% slower): 1 âŒ\n- **Similar** (Â±10%): 0 âž–\n\nâš ï¸ **WARNING**: Performance regressions detected!\n"

/-- The report produced from two empty input files named `a` and `b`. -/
def emptyReport : String :=
  "# Branch Comparison Benchmark Report\n\n**Main Branch Results**: `a`\n**Current Branch Results**: `b`\n\n## Summary\n\n- **Total benchmarks**: 0\n- **Improvements** (>10% faster): 0 âœ…\n- **Regressions** (>10% slower): 0 âŒ\n- **Similar** (Â±10%): 0 âž–\n"

/-! ## Claim theorems and supporting lemmas -/

theorem strData_append (s t : String) : (s ++ t).data = s.data ++ t.data := by
  cases s; cases t; rfl

theorem infix_append_right (l x : List Char) : l <:+: x ++ l :=
  (List.suffix_append x l).isInfix

/-- C4 helper, shared with C6: the zero branch of the comparator. -/
theorem calculate_speedup_zero (m c : ℚ) (h : m = 0 ∨ c = 0) :
    calculate_speedup m c = (0, "N/A") := by
  unfold calculate_speedup
  rw [if_pos h]

/-- C4 helper: the faster branch. -/
theorem calculate_speedup_faster (m c : ℚ) (hm : m ≠ 0) (hc : c ≠ 0) (hr : 1 < m / c) :
    calculate_speedup m c = (m / c, formatFixed2 (m / c) ++ "Ã— faster") := by
  unfold calculate_speedup
  rw [if_neg (not_or.mpr ⟨hm, hc⟩), if_pos hr]

/-- C4 helper: the regression branch. -/
theorem calculate_speedup_slower (m c : ℚ) (hm : m ≠ 0) (hc : c ≠ 0) (hr : m / c < 1) :
    calculate_speedup m c =
      (m / c, formatFixed2 (1 / (m / c)) ++ "Ã— slower (regression)") := by
  unfold calculate_speedup
  rw [if_neg (not_or.mpr ⟨hm, hc⟩), if_neg (not_lt.mpr (le_of_lt hr)), if_pos hr]

/-- C4: the comparator returns `(0, "N/A")` when either side is zero;
otherwise it returns the ratio `main/current`, labelled "faster" above 1,
"slower (regression)" with the inverted factor below 1, and "Same" at 1;
`compare(200,100)` and `compare(100,200)` behave as the specification's
examples state. -/
theorem c4_speedup_spec :
    (∀ m c : ℚ, (m = 0 ∨ c = 0) → calculate_speedup m c = (0, "N/A")) ∧
    (∀ m c : ℚ, m ≠ 0 → c ≠ 0 → 1 < m / c →
      calculate_speedup m c = (m / c, formatFixed2 (m / c) ++ "Ã— faster") ∧
      "faster".data <:+: (calculate_speedup m c).2.data) ∧
    (∀ m c : ℚ, m ≠ 0 → c ≠ 0 → m / c < 1 →
      calculate_speedup m c =
        (m / c, formatFixed2 (1 / (m / c)) ++ "Ã— slower (regression)") ∧
      "slower (regression)".data <:+: (calculate_speedup m c).2.data) ∧
    (∀ m c : ℚ, m ≠ 0 → c ≠ 0 → m / c = 1 → calculate_speedup m c = (1, "Same")) ∧
    calculate_speedup 200 100 = (2, "2.00Ã— faster") ∧
    calculate_speedup 100 200 = (1 / 2, "2.00Ã— slower (regression)") := by
  refine ⟨calculate_speedup_zero, ?_, ?_, ?_, ?_, ?_⟩
  · intro m c hm hc hr
    have he := calculate_speedup_faster m c hm hc hr
    refine ⟨he, ?_⟩
    rw [he]
    show "faster".data <:+: (formatFixed2 (m / c) ++ "Ã— faster").data
    rw [strData_append,
      show ("Ã— faster" : String).data = ("Ã— " : String).data ++ ("faster" : String).data
        from rfl,
      ← List.append_assoc]
    exact infix_append_right _ _
  · intro m c hm hc hr
    have he := calculate_speedup_slower m c hm hc hr
    refine ⟨he, ?_⟩
    rw [he]
    show "slower (regression)".data <:+:
      (formatFixed2 (1 / (m / c)) ++ "Ã— slower (regression)").data
    rw [strData_append,
      show ("Ã— slower (regression)" : String).data =
          ("Ã— " : String).data ++ ("slower (regression)" : String).data from rfl,
      ← List.append_assoc]
    exact infix_append_right _ _
  · intro m c hm hc hr
    unfold calculate_speedup
    rw [if_neg (not_or.mpr ⟨hm, hc⟩), if_neg (by rw [hr]; exact lt_irrefl 1),
      if_neg (by rw [hr]; exact lt_irrefl 1)]
  · exact (by decide)
  · exact (by decide)

/-- C4 witness: the theorem applied at concrete inputs. -/
theorem c4_speedup_spec_witness :
    calculate_speedup 0 100 = (0, "N/A") ∧
    calculate_speedup 200 100 = (200 / 100, formatFixed2 (200 / 100) ++ "Ã— faster") :=
  ⟨c4_speedup_spec.1 0 100 (Or.inl rfl),
   (c4_speedup_spec.2.1 200 100 (by norm_num) (by norm_num) (by norm_num)).1⟩

theorem isSpaceChar_cases {c : Char} (h : isSpaceChar c = true) :
    c = ' ' ∨ c = '\t' ∨ c = '\n' ∨ c = '\r' ∨ c = '\x0b' ∨ c = '\x0c' := by
  unfold isSpaceChar at h
  simp only [Bool.or_eq_true, beq_iff_eq] at h
  tauto

theorem digit_nonspace {c : Char} (h : c.isDigit = true) : isNonSpaceChar c = true := by
  unfold isNonSpaceChar
  cases hs : isSpaceChar c
  · rfl
  · rcases isSpaceChar_cases hs with rfl | rfl | rfl | rfl | rfl | rfl <;>
      exact absurd h (by decide)

theorem word_nonspace {c : Char} (h : isWordChar c = true) : isNonSpaceChar c = true := by
  unfold isNonSpaceChar
  cases hs : isSpaceChar c
  · rfl
  · rcases isSpaceChar_cases hs with rfl | rfl | rfl | rfl | rfl | rfl <;>
      exact absurd h (by decide)

theorem word_ne_slash {c : Char} (h : isWordChar c = true) : c ≠ '/' := by
  rintro rfl
  exact absurd h (by decide)

theorem digit_ne_slash {c : Char} (h : c.isDigit = true) : c ≠ '/' := by
  rintro rfl
  exact absurd h (by decide)

theorem digit_digitdot {c : Char} (h : c.isDigit = true) : isDigitDot c = true := by
  unfold isDigitDot
  rw [h]
  rfl

theorem nonspace_of_not_space {c : Char} (h : isSpaceChar c = false) :
    isNonSpaceChar c = true := by
  unfold isNonSpaceChar
  rw [h]
  rfl

theorem not_space_of_nonspace {c : Char} (h : isNonSpaceChar c = true) :
    isSpaceChar c = false := by
  unfold isNonSpaceChar at h
  cases hs : isSpaceChar c
  · rfl
  · rw [hs] at h
    exact absurd h (by decide)

theorem takeWhile_append_all {p : Char → Bool} :
    ∀ (t r : List Char), (∀ c ∈ t, p c = true) →
      (∀ c, r.head? = some c → p c = false) → (t ++ r).takeWhile p = t := by
  intro t
  induction t with
  | nil =>
    intro r _ hr
    cases r with
    | nil => rfl
    | cons c cs =>
      show List.takeWhile p (c :: cs) = []
      exact List.takeWhile_cons_of_neg (by rw [hr c rfl]; exact Bool.false_ne_true)
  | cons a t ih =>
    intro r ht hr
    rw [List.cons_append,
      List.takeWhile_cons_of_pos (by rw [ht a (List.mem_cons_self a t)]),
      ih r (fun c hc => ht c (List.mem_cons_of_mem _ hc)) hr]

theorem dropWhile_append_all {p : Char → Bool} :
    ∀ (t r : List Char), (∀ c ∈ t, p c = true) →
      (∀ c, r.head? = some c → p c = false) → (t ++ r).dropWhile p = r := by
  intro t
  induction t with
  | nil =>
    intro r _ hr
    cases r with
    | nil => rfl
    | cons c cs =>
      show List.dropWhile p (c :: cs) = c :: cs
      exact List.dropWhile_cons_of_neg (by rw [hr c rfl]; exact Bool.false_ne_true)
  | cons a t ih =>
    intro r ht hr
    rw [List.cons_append,
      List.dropWhile_cons_of_pos (by rw [ht a (List.mem_cons_self a t)]),
      ih r (fun c hc => ht c (List.mem_cons_of_mem _ hc)) hr]

theorem drop_append_ge (A B : List Char) (i : Nat) (h : A.length ≤ i) :
    (A ++ B).drop i = B.drop (i - A.length) := by
  conv_lhs => rw [show i = A.length + (i - A.length) from by omega]
  rw [List.drop_append]

theorem head_drop_append {l : List Char} (u : List Char) {i : Nat} (h : i < l.length) :
    ∃ c ∈ l, ∃ w, (l ++ u).drop i = c :: w := by
  rw [List.drop_append_of_le_length (le_of_lt h), List.drop_eq_getElem_cons h]
  exact ⟨l[i], List.getElem_mem h, l.drop (i + 1) ++ u, rfl⟩

theorem tryNum_succ (s : List Char) (k : Nat) :
    tryNum s (k + 1) =
      if ((s.drop (k + 1)).dropWhile isSpaceChar).isEmpty then tryNum s k
      else some (s.take (k + 1),
        ((s.drop (k + 1)).dropWhile isSpaceChar).takeWhile isNonSpaceChar) := rfl

theorem alt1TrySecond_succ_nil (s2 : List Char) (j : Nat)
    (hd : s2.drop (j + 1) = []) :
    alt1TrySecond s2 (j + 1) = alt1TrySecond s2 j := by
  conv_lhs => rw [alt1TrySecond, hd]

theorem alt1TrySecond_succ_cons (s2 : List Char) (j : Nat) (c : Char) (s3 : List Char)
    (hd : s2.drop (j + 1) = c :: s3) :
    alt1TrySecond s2 (j + 1) =
      if c = '/' then
        if (s3.takeWhile Char.isDigit).isEmpty then alt1TrySecond s2 j
        else
          match matchTail (s3.drop (s3.takeWhile Char.isDigit).length) with
          | some (g2, rem) =>
            some (j + 1 + 1 + (s3.takeWhile Char.isDigit).length, g2, rem)
          | none => alt1TrySecond s2 j
      else alt1TrySecond s2 j := by
  conv_lhs => rw [alt1TrySecond, hd]

theorem alt1TryFirst_succ_nil (s : List Char) (j : Nat)
    (hd : s.drop (j + 1) = []) :
    alt1TryFirst s (j + 1) = alt1TryFirst s j := by
  conv_lhs => rw [alt1TryFirst, hd]

theorem alt1TryFirst_succ_cons (s : List Char) (j : Nat) (c : Char) (s2 : List Char)
    (hd : s.drop (j + 1) = c :: s2) :
    alt1TryFirst s (j + 1) =
      if c = '/' then
        match alt1TrySecond s2 (s2.takeWhile isNonSpaceChar).length with
        | some (len2, g2, rem) => some (j + 1 + 1 + len2, g2, rem)
        | none => alt1TryFirst s j
      else alt1TryFirst s j := by
  conv_lhs => rw [alt1TryFirst, hd]

theorem alt2Try_succ (s : List Char) (j : Nat) :
    alt2Try s (j + 1) =
      match matchTail (s.drop (j + 1)) with
      | some (g2, rem) => some (j + 1, g2, rem)
      | none => alt2Try s j := rfl

theorem scanFuel_nil (f : Nat) : scanFuel f [] = [] := by
  cases f <;> rfl

theorem alt1TrySecond_descend (s2 : List Char) :
    ∀ j k, k ≤ j →
      (∀ i c s3, k < i → i ≤ j → s2.drop i = c :: s3 → c ≠ '/') →
      alt1TrySecond s2 j = alt1TrySecond s2 k := by
  intro j
  induction j with
  | zero =>
    intro k hk _
    rw [Nat.le_zero.mp hk]
  | succ j ih =>
    intro k hk hfail
    rcases Nat.eq_or_lt_of_le hk with rfl | hlt
    · rfl
    · have hkj : k ≤ j := Nat.lt_succ_iff.mp hlt
      have hstep : alt1TrySecond s2 (j + 1) = alt1TrySecond s2 j := by
        rcases hd : s2.drop (j + 1) with _ | ⟨c, s3⟩
        · exact alt1TrySecond_succ_nil s2 j hd
        · rw [alt1TrySecond_succ_cons s2 j c s3 hd,
            if_neg (hfail (j + 1) c s3 hlt (Nat.le_refl _) hd)]
      rw [hstep]
      exact ih k hkj (fun i c s3 h1 h2 => hfail i c s3 h1 (Nat.le_succ_of_le h2))

theorem alt1TryFirst_descend (s : List Char) :
    ∀ j k, k ≤ j →
      (∀ i c s2, k < i → i ≤ j → s.drop i = c :: s2 →
        c ≠ '/' ∨ alt1TrySecond s2 (s2.takeWhile isNonSpaceChar).length = none) →
      alt1TryFirst s j = alt1TryFirst s k := by
  intro j
  induction j with
  | zero =>
    intro k hk _
    rw [Nat.le_zero.mp hk]
  | succ j ih =>
    intro k hk hfail
    rcases Nat.eq_or_lt_of_le hk with rfl | hlt
    · rfl
    · have hkj : k ≤ j := Nat.lt_succ_iff.mp hlt
      have hstep : alt1TryFirst s (j + 1) = alt1TryFirst s j := by
        rcases hd : s.drop (j + 1) with _ | ⟨c, s2⟩
        · exact alt1TryFirst_succ_nil s j hd
        · rcases hfail (j + 1) c s2 hlt (Nat.le_refl _) hd with hc | hnone
          · rw [alt1TryFirst_succ_cons s j c s2 hd, if_neg hc]
          · by_cases hc : c = '/'
            · rw [alt1TryFirst_succ_cons s j c s2 hd, if_pos hc, hnone]
            · rw [alt1TryFirst_succ_cons s j c s2 hd, if_neg hc]
      rw [hstep]
      exact ih k hkj (fun i c s2 h1 h2 => hfail i c s2 h1 (Nat.le_succ_of_le h2))

theorem matchTail_bracket (r4 : List Char) :
    matchTail (' ' :: 't' :: 'i' :: 'm' :: 'e' :: ':' :: ' ' :: '[' :: r4) =
      (if (r4.takeWhile (fun c => c != ']')).isEmpty then none
       else
         match r4.dropWhile (fun c => c != ']') with
         | ']' :: r6 => some (r4.takeWhile (fun c => c != ']'), r6)
         | _ => none) := rfl

theorem matchTail_sep (inner rest : List Char) (hne : inner ≠ [])
    (hbr : ∀ c ∈ inner, c ≠ ']') :
    matchTail (sepChars ++ (inner ++ ']' :: rest)) = some (inner, rest) := by
  have hb : ∀ c ∈ inner, (fun c => c != ']') c = true := by
    intro c hc
    simp only [bne_iff_ne, ne_eq]
    exact hbr c hc
  have hhead : ∀ c : Char, (']' :: rest).head? = some c → (fun c => c != ']') c = false := by
    intro c hc
    simp only [List.head?_cons] at hc
    rw [← Option.some.inj hc]
    rfl
  have htake : ((inner ++ ']' :: rest).takeWhile (fun c => c != ']')) = inner :=
    takeWhile_append_all inner (']' :: rest) hb hhead
  have hdrop : ((inner ++ ']' :: rest).dropWhile (fun c => c != ']')) = ']' :: rest :=
    dropWhile_append_all inner (']' :: rest) hb hhead
  have hie : inner.isEmpty = false := by
    cases inner with
    | nil => exact absurd rfl hne
    | cons a l => rfl
  show matchTail
      (' ' :: 't' :: 'i' :: 'm' :: 'e' :: ':' :: ' ' :: '[' :: (inner ++ ']' :: rest)) =
    some (inner, rest)
  rw [matchTail_bracket, htake, hdrop, hie]
  rfl

theorem cons_head_inj {a b : Char} {l1 l2 : List Char} (h : a :: l1 = b :: l2) :
    a = b := by
  injection h

theorem cons_tail_inj {a b : Char} {l1 l2 : List Char} (h : a :: l1 = b :: l2) :
    l1 = l2 := by
  injection h

theorem sep_head (inner : List Char) :
    (sepChars ++ (inner ++ [']'])).head? = some ' ' := rfl

theorem sep_head_nonspace (inner : List Char) :
    ∀ c : Char, (sepChars ++ (inner ++ [']'])).head? = some c →
      isNonSpaceChar c = false := by
  intro c hc
  rw [sep_head] at hc
  rw [← Option.some.inj hc]
  rfl

theorem sep_head_nondigit (inner : List Char) :
    ∀ c : Char, (sepChars ++ (inner ++ [']'])).head? = some c →
      Char.isDigit c = false := by
  intro c hc
  rw [sep_head] at hc
  rw [← Option.some.inj hc]
  rfl

theorem sep_head_nonword (inner : List Char) :
    ∀ c : Char, (sepChars ++ (inner ++ [']'])).head? = some c →
      isWordChar c = false := by
  intro c hc
  rw [sep_head] at hc
  rw [← Option.some.inj hc]
  rfl

theorem sep_cons_ne_slash (inner : List Char) {c : Char} {w : List Char}
    (h : sepChars ++ (inner ++ [']']) = c :: w) : c ≠ '/' := by
  have h0 := sep_head inner
  rw [h] at h0
  rw [Option.some.inj h0]
  decide

/-- Failure of the `/\S+/\d+` ladder on `digits ++ separator` (no slash in
range). -/
theorem alt1TrySecond_ds_none (ds inner : List Char)
    (hd : ∀ c ∈ ds, c.isDigit = true) :
    alt1TrySecond (ds ++ (sepChars ++ (inner ++ [']'])))
      ((ds ++ (sepChars ++ (inner ++ [']']))).takeWhile isNonSpaceChar).length = none := by
  have hrun2 : (ds ++ (sepChars ++ (inner ++ [']']))).takeWhile isNonSpaceChar = ds :=
    takeWhile_append_all _ _ (fun c hc => digit_nonspace (hd c hc))
      (sep_head_nonspace inner)
  rw [hrun2]
  have hdesc : alt1TrySecond (ds ++ (sepChars ++ (inner ++ [']']))) ds.length =
      alt1TrySecond (ds ++ (sepChars ++ (inner ++ [']']))) 0 := by
    apply alt1TrySecond_descend
    · exact Nat.zero_le _
    · intro i c s3 h0 hnd hdrop
      rcases Nat.lt_or_ge i ds.length with hlt | hge
      · obtain ⟨ch, hch, w, hw⟩ := head_drop_append (sepChars ++ (inner ++ [']'])) hlt
        rw [hw] at hdrop
        rw [← cons_head_inj hdrop]
        exact digit_ne_slash (hd ch hch)
      · have hieq : i = ds.length := Nat.le_antisymm hnd hge
        rw [hieq, List.drop_left] at hdrop
        exact sep_cons_ne_slash inner hdrop
  rw [hdesc]
  rfl

/-- Success of the first alternative on a well-formed `tok/tok/digits`
benchmark name followed by the separator and bracketed text. -/
theorem matchAlt1_slash (t1 t2 ds inner : List Char)
    (h1ne : t1 ≠ []) (h2ne : t2 ≠ []) (hdne : ds ≠ [])
    (h1 : ∀ c ∈ t1, isNonSpaceChar c = true ∧ c ≠ '/')
    (h2 : ∀ c ∈ t2, isNonSpaceChar c = true ∧ c ≠ '/')
    (hd : ∀ c ∈ ds, c.isDigit = true)
    (hinner : inner ≠ []) (hbr : ∀ c ∈ inner, c ≠ ']') :
    matchAlt1 ((t1 ++ '/' :: (t2 ++ '/' :: ds)) ++ (sepChars ++ (inner ++ [']']))) =
      some ((t1 ++ '/' :: (t2 ++ '/' :: ds)).length, inner, []) := by
  have hlen : (t1 ++ '/' :: (t2 ++ '/' :: ds)).length =
      t1.length + 1 + (t2.length + 1 + ds.length) := by
    simp only [List.length_append, List.length_cons]
    omega
  have h1pos : 0 < t1.length := List.length_pos.mpr h1ne
  have h2pos : 0 < t2.length := List.length_pos.mpr h2ne
  have hn_ns : ∀ c ∈ t1 ++ '/' :: (t2 ++ '/' :: ds), isNonSpaceChar c = true := by
    intro c hc
    rcases List.mem_append.mp hc with h | h
    · exact (h1 c h).1
    · rcases List.mem_cons.mp h with rfl | h
      · decide
      · rcases List.mem_append.mp h with h | h
        · exact (h2 c h).1
        · rcases List.mem_cons.mp h with rfl | h
          · decide
          · exact digit_nonspace (hd c h)
  have hrun : ((t1 ++ '/' :: (t2 ++ '/' :: ds)) ++
      (sepChars ++ (inner ++ [']']))).takeWhile isNonSpaceChar =
      t1 ++ '/' :: (t2 ++ '/' :: ds) :=
    takeWhile_append_all _ _ hn_ns (sep_head_nonspace inner)
  -- the run of the second ladder's input
  have hassoc2 : t2 ++ '/' :: (ds ++ (sepChars ++ (inner ++ [']']))) =
      (t2 ++ '/' :: ds) ++ (sepChars ++ (inner ++ [']'])) := by
    simp [List.append_assoc]
  have h2_ns : ∀ c ∈ t2 ++ '/' :: ds, isNonSpaceChar c = true := by
    intro c hc
    rcases List.mem_append.mp hc with h | h
    · exact (h2 c h).1
    · rcases List.mem_cons.mp h with rfl | h
      · decide
      · exact digit_nonspace (hd c h)
  have hrun2 : (t2 ++ '/' :: (ds ++ (sepChars ++ (inner ++ [']'])))).takeWhile
      isNonSpaceChar = t2 ++ '/' :: ds := by
    rw [hassoc2]
    exact takeWhile_append_all _ _ h2_ns (sep_head_nonspace inner)
  have hrun2len : ((t2 ++ '/' :: (ds ++ (sepChars ++ (inner ++ [']'])))).takeWhile
      isNonSpaceChar).length = t2.length + 1 + ds.length := by
    rw [hrun2]
    simp only [List.length_append, List.length_cons]
    omega
  -- the second ladder succeeds at the second slash
  have hds_take : (ds ++ (sepChars ++ (inner ++ [']']))).takeWhile Char.isDigit = ds :=
    takeWhile_append_all _ _ hd (sep_head_nondigit inner)
  have hds_ne : ds.isEmpty = false := by
    cases ds with
    | nil => exact absurd rfl hdne
    | cons a l => rfl
  have hsecond_val : alt1TrySecond (t2 ++ '/' :: (ds ++ (sepChars ++ (inner ++ [']']))))
      (t2.length + 1 + ds.length) = some (t2.length + 1 + ds.length, inner, []) := by
    have hdesc2 : alt1TrySecond (t2 ++ '/' :: (ds ++ (sepChars ++ (inner ++ [']']))))
        (t2.length + 1 + ds.length) =
        alt1TrySecond (t2 ++ '/' :: (ds ++ (sepChars ++ (inner ++ [']'])))) t2.length := by
      apply alt1TrySecond_descend
      · omega
      · intro i c s3 hgt hle hdrop
        have hre : t2 ++ '/' :: (ds ++ (sepChars ++ (inner ++ [']']))) =
            (t2 ++ ['/']) ++ (ds ++ (sepChars ++ (inner ++ [']']))) := by
          simp [List.append_assoc]
        rw [hre, drop_append_ge _ _ i (by simp; omega),
          show (t2 ++ ['/']).length = t2.length + 1 from by simp] at hdrop
        rcases Nat.lt_or_ge (i - (t2.length + 1)) ds.length with hdl | hdg
        · obtain ⟨ch, hch, w, hw⟩ := head_drop_append (sepChars ++ (inner ++ [']'])) hdl
          rw [hw] at hdrop
          rw [← cons_head_inj hdrop]
          exact digit_ne_slash (hd ch hch)
        · have hmd : i - (t2.length + 1) = ds.length := by omega
          rw [hmd, List.drop_left] at hdrop
          exact sep_cons_ne_slash inner hdrop
    rw [hdesc2]
    have hdrop2 : (t2 ++ '/' :: (ds ++ (sepChars ++ (inner ++ [']'])))).drop
        ((t2.length - 1) + 1) = '/' :: (ds ++ (sepChars ++ (inner ++ [']']))) := by
      rw [show (t2.length - 1) + 1 = t2.length from by omega]
      exact List.drop_left t2 _
    rw [show t2.length = (t2.length - 1) + 1 from by omega,
      alt1TrySecond_succ_cons _ _ _ _ hdrop2, if_pos rfl, hds_take, hds_ne,
      List.drop_left, matchTail_sep inner [] hinner hbr]
    exact congrArg (fun n => some (n, inner, ([] : List Char))) (by omega)
  -- main ladder: descend to the first slash, then succeed
  show alt1TryFirst ((t1 ++ '/' :: (t2 ++ '/' :: ds)) ++ (sepChars ++ (inner ++ [']'])))
      (((t1 ++ '/' :: (t2 ++ '/' :: ds)) ++
        (sepChars ++ (inner ++ [']']))).takeWhile isNonSpaceChar).length = _
  rw [hrun]
  have hdesc : alt1TryFirst ((t1 ++ '/' :: (t2 ++ '/' :: ds)) ++
      (sepChars ++ (inner ++ [']']))) (t1 ++ '/' :: (t2 ++ '/' :: ds)).length =
      alt1TryFirst ((t1 ++ '/' :: (t2 ++ '/' :: ds)) ++
        (sepChars ++ (inner ++ [']']))) t1.length := by
    apply alt1TryFirst_descend
    · omega
    · intro i c s2' hgt hle hdrop
      have hsA : (t1 ++ '/' :: (t2 ++ '/' :: ds)) ++ (sepChars ++ (inner ++ [']'])) =
          (t1 ++ ['/']) ++ (t2 ++ '/' :: (ds ++ (sepChars ++ (inner ++ [']'])))) := by
        simp [List.append_assoc]
      rw [hsA, drop_append_ge _ _ i (by simp; omega),
        show (t1 ++ ['/']).length = t1.length + 1 from by simp] at hdrop
      rcases Nat.lt_or_ge (i - (t1.length + 1)) t2.length with hmlt | hmge
      · left
        obtain ⟨ch, hch, w, hw⟩ :=
          head_drop_append ('/' :: (ds ++ (sepChars ++ (inner ++ [']'])))) hmlt
        rw [hw] at hdrop
        rw [← cons_head_inj hdrop]
        exact (h2 ch hch).2
      · rcases Nat.eq_or_lt_of_le hmge with hmeq | hmgt
        · right
          rw [← hmeq, List.drop_left] at hdrop
          rw [← cons_tail_inj hdrop]
          exact alt1TrySecond_ds_none ds inner hd
        · left
          have hre : t2 ++ '/' :: (ds ++ (sepChars ++ (inner ++ [']']))) =
              (t2 ++ ['/']) ++ (ds ++ (sepChars ++ (inner ++ [']']))) := by
            simp [List.append_assoc]
          rw [hre, drop_append_ge _ _ _ (by simp; omega),
            show (t2 ++ ['/']).length = t2.length + 1 from by simp] at hdrop
          rcases Nat.lt_or_ge (i - (t1.length + 1) - (t2.length + 1)) ds.length with
            hdl | hdg
          · obtain ⟨ch, hch, w, hw⟩ := head_drop_append (sepChars ++ (inner ++ [']'])) hdl
            rw [hw] at hdrop
            rw [← cons_head_inj hdrop]
            exact digit_ne_slash (hd ch hch)
          · have hmd : i - (t1.length + 1) - (t2.length + 1) = ds.length := by omega
            rw [hmd, List.drop_left] at hdrop
            exact sep_cons_ne_slash inner hdrop
  rw [hdesc]
  have hdropn1 : ((t1 ++ '/' :: (t2 ++ '/' :: ds)) ++
      (sepChars ++ (inner ++ [']']))).drop ((t1.length - 1) + 1) =
      '/' :: (t2 ++ '/' :: (ds ++ (sepChars ++ (inner ++ [']'])))) := by
    have hsB : (t1 ++ '/' :: (t2 ++ '/' :: ds)) ++ (sepChars ++ (inner ++ [']'])) =
        t1 ++ ('/' :: (t2 ++ '/' :: (ds ++ (sepChars ++ (inner ++ [']']))))) := by
      simp [List.append_assoc]
    rw [show (t1.length - 1) + 1 = t1.length from by omega, hsB]
    exact List.drop_left t1 _
  rw [show t1.length = (t1.length - 1) + 1 from by omega,
    alt1TryFirst_succ_cons _ _ _ _ hdropn1, if_pos rfl, hrun2len, hsecond_val]
  exact congrArg (fun n => some (n, inner, ([] : List Char))) (by omega)

/-- `matchAt` on a well-formed `tok/tok/digits` line. -/
theorem matchAt_slash (t1 t2 ds inner : List Char)
    (h1ne : t1 ≠ []) (h2ne : t2 ≠ []) (hdne : ds ≠ [])
    (h1 : ∀ c ∈ t1, isNonSpaceChar c = true ∧ c ≠ '/')
    (h2 : ∀ c ∈ t2, isNonSpaceChar c = true ∧ c ≠ '/')
    (hd : ∀ c ∈ ds, c.isDigit = true)
    (hinner : inner ≠ []) (hbr : ∀ c ∈ inner, c ≠ ']') :
    matchAt ((t1 ++ '/' :: (t2 ++ '/' :: ds)) ++ (sepChars ++ (inner ++ [']']))) =
      some (t1 ++ '/' :: (t2 ++ '/' :: ds), inner, []) := by
  show (match matchAlt1 ((t1 ++ '/' :: (t2 ++ '/' :: ds)) ++
      (sepChars ++ (inner ++ [']']))) with
    | some (len, g2, rem) =>
      some (((t1 ++ '/' :: (t2 ++ '/' :: ds)) ++
        (sepChars ++ (inner ++ [']']))).take len, g2, rem)
    | none =>
      match matchAlt2 ((t1 ++ '/' :: (t2 ++ '/' :: ds)) ++
        (sepChars ++ (inner ++ [']']))) with
      | some (len, g2, rem) =>
        some (((t1 ++ '/' :: (t2 ++ '/' :: ds)) ++
          (sepChars ++ (inner ++ [']']))).take len, g2, rem)
      | none => none) = _
  rw [matchAlt1_slash t1 t2 ds inner h1ne h2ne hdne h1 h2 hd hinner hbr]
  show some (((t1 ++ '/' :: (t2 ++ '/' :: ds)) ++
    (sepChars ++ (inner ++ [']']))).take (t1 ++ '/' :: (t2 ++ '/' :: ds)).length,
    inner, ([] : List Char)) = _
  rw [List.take_left' rfl]

/-- `matchAt` on a well-formed bare-identifier line: the first alternative
fails (the name contains no slash) and the second succeeds. -/
theorem matchAt_bare (name inner : List Char) (hne : name ≠ [])
    (hw : ∀ c ∈ name, isWordChar c = true)
    (hinner : inner ≠ []) (hbr : ∀ c ∈ inner, c ≠ ']') :
    matchAt (name ++ (sepChars ++ (inner ++ [']']))) = some (name, inner, []) := by
  have hpos : 0 < name.length := List.length_pos.mpr hne
  have hrun : (name ++ (sepChars ++ (inner ++ [']']))).takeWhile isNonSpaceChar = name :=
    takeWhile_append_all _ _ (fun c hc => word_nonspace (hw c hc))
      (sep_head_nonspace inner)
  have halt1 : matchAlt1 (name ++ (sepChars ++ (inner ++ [']']))) = none := by
    show alt1TryFirst (name ++ (sepChars ++ (inner ++ [']'])))
      ((name ++ (sepChars ++ (inner ++ [']']))).takeWhile isNonSpaceChar).length = none
    rw [hrun]
    have hdesc : alt1TryFirst (name ++ (sepChars ++ (inner ++ [']']))) name.length =
        alt1TryFirst (name ++ (sepChars ++ (inner ++ [']']))) 0 := by
      apply alt1TryFirst_descend
      · exact Nat.zero_le _
      · intro i c s2' hgt hle hdrop
        left
        rcases Nat.lt_or_ge i name.length with hlt | hge
        · obtain ⟨ch, hch, w, hw'⟩ := head_drop_append (sepChars ++ (inner ++ [']'])) hlt
          rw [hw'] at hdrop
          rw [← cons_head_inj hdrop]
          exact word_ne_slash (hw ch hch)
        · have hieq : i = name.length := Nat.le_antisymm hle hge
          rw [hieq, List.drop_left] at hdrop
          exact sep_cons_ne_slash inner hdrop
    rw [hdesc]
    rfl
  have halt2 : matchAlt2 (name ++ (sepChars ++ (inner ++ [']']))) =
      some (name.length, inner, []) := by
    show alt2Try (name ++ (sepChars ++ (inner ++ [']'])))
      ((name ++ (sepChars ++ (inner ++ [']']))).takeWhile isWordChar).length = _
    rw [takeWhile_append_all _ _ hw (sep_head_nonword inner)]
    have hdropN : (name ++ (sepChars ++ (inner ++ [']']))).drop ((name.length - 1) + 1) =
        sepChars ++ (inner ++ [']']) := by
      rw [show (name.length - 1) + 1 = name.length from by omega]
      exact List.drop_left name _
    rw [show name.length = (name.length - 1) + 1 from by omega, alt2Try_succ, hdropN,
      matchTail_sep inner [] hinner hbr]
  have h1 : matchAt (name ++ (sepChars ++ (inner ++ [']']))) =
      (match matchAlt2 (name ++ (sepChars ++ (inner ++ [']']))) with
      | some (len, g2, rem) =>
        some ((name ++ (sepChars ++ (inner ++ [']']))).take len, g2, rem)
      | none => none) := by
    show (match matchAlt1 (name ++ (sepChars ++ (inner ++ [']']))) with
      | some (len, g2, rem) =>
        some ((name ++ (sepChars ++ (inner ++ [']']))).take len, g2, rem)
      | none =>
        match matchAlt2 (name ++ (sepChars ++ (inner ++ [']']))) with
        | some (len, g2, rem) =>
          some ((name ++ (sepChars ++ (inner ++ [']']))).take len, g2, rem)
        | none => none) = _
    rw [halt1]
  rw [h1, halt2]
  show some ((name ++ (sepChars ++ (inner ++ [']']))).take name.length, inner,
    ([] : List Char)) = _
  rw [List.take_left' rfl]

theorem scan_single (l g1 g2 : List Char) (hne : l ≠ [])
    (h : matchAt l = some (g1, g2, [])) : scan l = [(g1, g2)] := by
  obtain ⟨c, cs, rfl⟩ := List.exists_cons_of_ne_nil hne
  show scanFuel (c :: cs).length (c :: cs) = _
  rw [List.length_cons]
  have hstep : scanFuel (cs.length + 1) (c :: cs) =
      match matchAt (c :: cs) with
      | some (g1, g2, rem) => (g1, g2) :: scanFuel cs.length rem
      | none => scanFuel cs.length cs := rfl
  rw [hstep, h]
  show (g1, g2) :: scanFuel cs.length [] = _
  rw [scanFuel_nil]

theorem pySplitAux_cons (c : Char) (cs acc : List Char) :
    pySplitAux (c :: cs) acc =
      if isSpaceChar c then
        (if acc.isEmpty then pySplitAux cs [] else acc.reverse :: pySplitAux cs [])
      else pySplitAux cs (c :: acc) := rfl

theorem pySplitAux_push :
    ∀ (t : List Char), (∀ c ∈ t, isSpaceChar c = false) →
      ∀ (r acc : List Char), pySplitAux (t ++ r) acc =
        pySplitAux r (t.reverse ++ acc) := by
  intro t
  induction t with
  | nil =>
    intro _ r acc
    rfl
  | cons a t ih =>
    intro ht r acc
    show pySplitAux (a :: (t ++ r)) acc = _
    rw [pySplitAux_cons,
      if_neg (by rw [ht a (List.mem_cons_self a t)]; exact Bool.false_ne_true),
      ih (fun c hc => ht c (List.mem_cons_of_mem _ hc)) r (a :: acc),
      List.reverse_cons, List.append_assoc]
    rfl

theorem reverse_isEmpty_false (t : List Char) (hne : t ≠ []) :
    t.reverse.isEmpty = false := by
  cases h : t.reverse with
  | nil => exact absurd (List.reverse_eq_nil_iff.mp h) hne
  | cons a l => rfl

theorem pySplit_token (t r : List Char) (hne : t ≠ [])
    (ht : ∀ c ∈ t, isSpaceChar c = false) :
    pySplit (t ++ ' ' :: r) = t :: pySplit r := by
  show pySplitAux (t ++ ' ' :: r) [] = _
  rw [pySplitAux_push t ht (' ' :: r) [], pySplitAux_cons,
    if_pos (show isSpaceChar ' ' = true from rfl), List.append_nil,
    if_neg (by rw [reverse_isEmpty_false t hne]; exact Bool.false_ne_true),
    List.reverse_reverse]
  rfl

theorem pySplit_single (t : List Char) (hne : t ≠ [])
    (ht : ∀ c ∈ t, isSpaceChar c = false) :
    pySplit t = [t] := by
  show pySplitAux t [] = _
  have h := pySplitAux_push t ht [] []
  rw [List.append_nil, List.append_nil] at h
  rw [h]
  show (if (t.reverse).isEmpty then [] else [t.reverse.reverse]) = [t]
  rw [if_neg (by rw [reverse_isEmpty_false t hne]; exact Bool.false_ne_true),
    List.reverse_reverse]

/-- Parsing a single well-formed benchmark line: the scan finds exactly the
one match, with group 1 the name and group 2 the bracketed text. -/
theorem scan_line (name inner : List Char) (hn : WFName name)
    (hinner : inner ≠ []) (hbr : ∀ ch ∈ inner, ch ≠ ']') :
    scan (mkLine name inner).data = [(name, inner)] := by
  have hnne : name ≠ [] := by
    rcases hn with ⟨hne, _⟩ | ⟨t1, t2, ds, heq, h1ne, _, _, _, _, _⟩
    · exact hne
    · rw [heq]
      intro h
      exact h1ne (List.append_eq_nil.mp h).1
  have hne : (name ++ (sepChars ++ (inner ++ [']']))) ≠ [] := by
    intro h
    exact hnne (List.append_eq_nil.mp h).1
  have hm : matchAt (name ++ (sepChars ++ (inner ++ [']']))) = some (name, inner, []) := by
    rcases hn with ⟨_, hword⟩ | ⟨t1, t2, ds, heq, h1ne, h2ne, hdne, h1, h2, hd⟩
    · exact matchAt_bare name inner hnne hword hinner hbr
    · rw [heq]
      exact matchAt_slash t1 t2 ds inner h1ne h2ne hdne h1 h2 hd hinner hbr
  show scan (name ++ (sepChars ++ (inner ++ [']']))) = [(name, inner)]
  exact scan_single _ _ _ hne hm

/-- C2: a well-formed line `<name> time: [<a> <b> <c>]` with single-token
pieces parses to exactly one record, keyed by the name, whose `time` is the
second token `b` verbatim and whose `full_time` is the whole bracketed text
verbatim; a bracketed segment with fewer than two tokens (one token, or
whitespace only) produces no record. -/
theorem c2_parser_fields (name a b c : List Char)
    (hn : WFName name) (ha : WFTimeToken a) (hb : WFTimeToken b) (hc : WFTimeToken c) :
    parse_criterion_output (mkLine name (a ++ ' ' :: (b ++ ' ' :: c))) =
      [(String.mk name,
        ⟨String.mk b, String.mk (a ++ ' ' :: (b ++ ' ' :: c))⟩)] ∧
    parse_criterion_output (mkLine name a) = [] ∧
    parse_criterion_output (mkLine name [' ']) = [] := by
  have hsp : ∀ (t : List Char), (∀ ch ∈ t, isNonSpaceChar ch = true ∧ ch ≠ ']') →
      ∀ ch ∈ t, isSpaceChar ch = false :=
    fun t h ch hc' => not_space_of_nonspace (h ch hc').1
  refine ⟨?_, ?_, ?_⟩
  · have hinner_ne : (a ++ ' ' :: (b ++ ' ' :: c)) ≠ [] := by
      intro h
      exact List.cons_ne_nil _ _ (List.append_eq_nil.mp h).2
    have hinner_br : ∀ ch ∈ a ++ ' ' :: (b ++ ' ' :: c), ch ≠ ']' := by
      intro ch hch
      rcases List.mem_append.mp hch with h | h
      · exact (ha.2 ch h).2
      · rcases List.mem_cons.mp h with rfl | h
        · decide
        · rcases List.mem_append.mp h with h | h
          · exact (hb.2 ch h).2
          · rcases List.mem_cons.mp h with rfl | h
            · decide
            · exact (hc.2 ch h).2
    show (scan (mkLine name (a ++ ' ' :: (b ++ ' ' :: c))).data).foldl _ [] = _
    rw [scan_line name _ hn hinner_ne hinner_br]
    show (match pySplit (a ++ ' ' :: (b ++ ' ' :: c)) with
      | _ :: b' :: _ =>
        setKey [] (String.mk name)
          ⟨String.mk b', String.mk (a ++ ' ' :: (b ++ ' ' :: c))⟩
      | _ => []) = _
    rw [pySplit_token a _ ha.1 (hsp a ha.2),
      pySplit_token b _ hb.1 (hsp b hb.2),
      pySplit_single c hc.1 (hsp c hc.2)]
    rfl
  · have hbr : ∀ ch ∈ a, ch ≠ ']' := fun ch h => (ha.2 ch h).2
    show (scan (mkLine name a).data).foldl _ [] = _
    rw [scan_line name a hn ha.1 hbr]
    show (match pySplit a with
      | _ :: b' :: _ => setKey [] (String.mk name) ⟨String.mk b', String.mk a⟩
      | _ => []) = _
    rw [pySplit_single a ha.1 (hsp a ha.2)]
  · show (scan (mkLine name [' ']).data).foldl _ [] = _
    rw [scan_line name [' '] hn (by decide) (by decide)]
    rfl

/-- C2 witness: the theorem applied to a concrete bare-identifier line and
concrete tokens. -/
theorem c2_parser_fields_witness :
    WFName "foo_bar".data ∧ WFTimeToken "34ns".data ∧
    parse_criterion_output (mkLine "foo_bar".data
      ("12ns".data ++ ' ' :: ("34ns".data ++ ' ' :: "56ns".data))) =
      [("foo_bar", ⟨"34ns", "12ns 34ns 56ns"⟩)] := by
  refine ⟨Or.inl ⟨by decide, by decide⟩, ⟨by decide, by decide⟩, ?_⟩
  exact (c2_parser_fields "foo_bar".data "12ns".data "34ns".data "56ns".data
    (Or.inl ⟨by decide, by decide⟩) ⟨by decide, by decide⟩ ⟨by decide, by decide⟩
    ⟨by decide, by decide⟩).1

theorem takeWhile_all_of (t : List Char) {p : Char → Bool} (h : ∀ c ∈ t, p c = true) :
    t.takeWhile p = t := by
  have h2 := takeWhile_append_all t [] h (fun c hc => Option.noConfusion hc)
  rwa [List.append_nil] at h2

theorem dropWhile_all_of (t : List Char) {p : Char → Bool} (h : ∀ c ∈ t, p c = true) :
    t.dropWhile p = [] := by
  have h2 := dropWhile_append_all t [] h (fun c hc => Option.noConfusion hc)
  rwa [List.append_nil] at h2

/-- The time regex on `<digits-dots> <unit>`: group 1 is the numeric prefix
and group 2 the unit token. -/
theorem matchTimeRegex_sep (val unit : List Char) (hvne : val ≠ [])
    (hvd : ∀ c ∈ val, isDigitDot c = true)
    (hune : unit ≠ []) (hun : ∀ c ∈ unit, isNonSpaceChar c = true) :
    matchTimeRegex (val ++ ' ' :: unit) = some (val, unit) := by
  have htake : (val ++ ' ' :: unit).takeWhile isDigitDot = val :=
    takeWhile_append_all _ _ hvd (fun c hc => by
      simp only [List.head?_cons] at hc
      rw [← Option.some.inj hc]
      rfl)
  have hvpos : 0 < val.length := List.length_pos.mpr hvne
  have hu : unit.dropWhile isSpaceChar = unit := by
    cases unit with
    | nil => rfl
    | cons u ur =>
      exact List.dropWhile_cons_of_neg (by
        rw [not_space_of_nonspace (hun u (List.mem_cons_self u ur))]
        exact Bool.false_ne_true)
  have hue : unit.isEmpty = false := by
    cases unit with
    | nil => exact absurd rfl hune
    | cons u ur => rfl
  show tryNum (val ++ ' ' :: unit) ((val ++ ' ' :: unit).takeWhile isDigitDot).length = _
  rw [htake, show val.length = (val.length - 1) + 1 from by omega, tryNum_succ,
    show (val.length - 1) + 1 = val.length from by omega, List.drop_left,
    List.dropWhile_cons_of_pos (show isSpaceChar ' ' = true from rfl), hu,
    if_neg (by rw [hue]; exact Bool.false_ne_true), List.take_left,
    takeWhile_all_of unit hun]

/-- C3 amended: the normalizer multiplies the numeric prefix by the unit
factor, but the microsecond table key is the source's mojibake spelling
`"Âµs"`; the genuine `"µs"` falls through to the ×1 default, so `"10 µs"`
yields 10.0 while `"10 Âµs"` and `"10 us"` yield 10000.0; the other
concrete examples behave as stated. -/
theorem c3_unit_table (val unit : List Char) (hvne : val ≠ [])
    (hvd : ∀ c ∈ val, isDigitDot c = true)
    (hvalid : val.any Char.isDigit = true ∧ val.count '.' ≤ 1)
    (hune : unit ≠ []) (hun : ∀ c ∈ unit, isNonSpaceChar c = true) :
    parse_time_to_ns (String.mk (val ++ ' ' :: unit)) =
      some (pyFloatVal val * conversions (String.mk unit)) ∧
    conversions "ns" = 1 ∧ conversions "Âµs" = 1000 ∧ conversions "us" = 1000 ∧
    conversions "ms" = 1000000 ∧ conversions "s" = 1000000000 ∧
    conversions "µs" = 1 ∧ conversions "foo" = 1 ∧
    parse_time_to_ns "500 ns" = some 500 ∧
    parse_time_to_ns "1.5 ms" = some 1500000 ∧
    parse_time_to_ns "2 s" = some 2000000000 ∧
    parse_time_to_ns "10 us" = some 10000 ∧
    parse_time_to_ns "10 Âµs" = some 10000 ∧
    parse_time_to_ns "10 µs" = some 10 ∧
    parse_time_to_ns "42 foo" = some 42 := by
  refine ⟨?_, by decide, by decide, by decide, by decide, by decide, by decide, by decide,
    by decide, by decide, by decide, by decide, by decide, by decide, by decide⟩
  have h1 : parse_time_to_ns (String.mk (val ++ ' ' :: unit)) =
      match pyFloat val with
      | none => none
      | some v => some (v * conversions (String.mk unit)) := by
    show (match matchTimeRegex (val ++ ' ' :: unit) with
      | none => some 0
      | some (g1, g2) =>
        match pyFloat g1 with
        | none => none
        | some v => some (v * conversions (String.mk g2))) = _
    rw [matchTimeRegex_sep val unit hvne hvd hune hun]
  rw [h1, show pyFloat val = some (pyFloatVal val) from by
    unfold pyFloat
    rw [if_pos ⟨hvalid.1, hvalid.2⟩]]

/-- C3 witness: the general rule applied at `"500 ns"`. -/
theorem c3_unit_table_witness :
    parse_time_to_ns (String.mk ("500".data ++ ' ' :: "ns".data)) =
      some (pyFloatVal "500".data * conversions (String.mk "ns".data)) ∧
    parse_time_to_ns "500 ns" = some 500 := by
  have h := c3_unit_table "500".data "ns".data (by decide) (by decide)
    ⟨by decide, by decide⟩ (by decide) (by decide)
  exact ⟨h.1, h.2.2.2.2.2.2.2.2.1⟩

/-- C10 amended: on a time string of two or more digits and nothing else,
backtracking hands the last digit to `\S+` as the "unit" (unrecognized,
×1), so the result is the numeric value of all but the last character; a
single digit does not match at all and yields 0.0. -/
theorem c10_digits_backtrack (l : List Char) (ch : Char) (hlne : l ≠ [])
    (hl : ∀ c ∈ l, c.isDigit = true) (hch : ch.isDigit = true) :
    matchTimeRegex (l ++ [ch]) = some (l, [ch]) ∧
    parse_time_to_ns (String.mk (l ++ [ch])) = some ((digitsToNat l : ℚ)) := by
  have hpos : 0 < l.length := List.length_pos.mpr hlne
  have hall : ∀ c ∈ l ++ [ch], isDigitDot c = true := by
    intro c hc
    rcases List.mem_append.mp hc with h | h
    · exact digit_digitdot (hl c h)
    · rcases List.mem_cons.mp h with rfl | h
      · exact digit_digitdot hch
      · cases h
  have hmr : matchTimeRegex (l ++ [ch]) = some (l, [ch]) := by
    show tryNum (l ++ [ch]) ((l ++ [ch]).takeWhile isDigitDot).length = _
    rw [takeWhile_all_of _ hall, show (l ++ [ch]).length = l.length + 1 from by simp,
      tryNum_succ, show (l ++ [ch]).drop (l.length + 1) = [] from
        List.drop_eq_nil_of_le (by simp),
      if_pos (show (List.dropWhile isSpaceChar ([] : List Char)).isEmpty = true from rfl),
      show l.length = (l.length - 1) + 1 from by omega, tryNum_succ,
      show (l.length - 1) + 1 = l.length from by omega, List.drop_left,
      List.dropWhile_cons_of_neg (by
        rw [not_space_of_nonspace (digit_nonspace hch)]
        exact Bool.false_ne_true),
      if_neg (show ¬ ([ch].isEmpty = true) from fun h => Bool.false_ne_true h),
      List.take_left, List.takeWhile_cons_of_pos (digit_nonspace hch)]
    rfl
  refine ⟨hmr, ?_⟩
  have hpf : pyFloat l = some ((digitsToNat l : ℚ)) := by
    have hnd : ∀ c ∈ l, (fun c => c != '.') c = true := by
      intro c hc
      simp only [bne_iff_ne, ne_eq]
      intro he
      rw [he] at hc
      exact absurd (hl '.' hc) (by decide)
    have hany : l.any Char.isDigit = true := by
      obtain ⟨c0, l', rfl⟩ := List.exists_cons_of_ne_nil hlne
      exact List.any_eq_true.mpr ⟨c0, List.mem_cons_self c0 l', hl c0 (List.mem_cons_self c0 l')⟩
    have hcnt : l.count '.' = 0 := List.count_eq_zero.mpr (fun h =>
      absurd (hl '.' h) (by decide))
    unfold pyFloat
    rw [if_pos ⟨hany, by omega⟩]
    unfold pyFloatVal
    rw [takeWhile_all_of l hnd, dropWhile_all_of l hnd]
    norm_num [digitsToNat]
  have hconv : conversions (String.mk [ch]) = 1 := by
    unfold conversions
    rw [if_neg (fun h => by have hd := congrArg String.data h; simp at hd),
      if_neg (fun h => by have hd := congrArg String.data h; simp at hd),
      if_neg (fun h => by have hd := congrArg String.data h; simp at hd),
      if_neg (fun h => by have hd := congrArg String.data h; simp at hd),
      if_neg (fun h => by
        have hd := congrArg String.data h
        simp at hd
        rw [hd] at hch
        exact absurd hch (by decide))]
  show (match matchTimeRegex (l ++ [ch]) with
    | none => some 0
    | some (g1, g2) =>
      match pyFloat g1 with
      | none => none
      | some v => some (v * conversions (String.mk g2))) = _
  rw [hmr]
  show (match pyFloat l with
    | none => none
    | some v => some (v * conversions (String.mk [ch]))) = _
  rw [hpf]
  show some ((digitsToNat l : ℚ) * conversions (String.mk [ch])) = _
  rw [hconv, mul_one]

/-- C10 witness: `"42"` parses to 4.0 via the theorem. -/
theorem c10_digits_backtrack_witness :
    parse_time_to_ns (String.mk ("4".data ++ ['2'])) =
      some ((digitsToNat "4".data : ℚ)) ∧
    parse_time_to_ns "42" = some 4 := by
  have h := c10_digits_backtrack "4".data '2' (by decide) (by decide) (by decide)
  exact ⟨h.2, by decide⟩

/-- C6 amended: a malformed time (not starting with a digit or dot)
normalizes to 0.0 and never raises; a benchmark present on both sides with
either side normalizing to 0.0 gets the base label `N/A`, but — unlike a
missing benchmark — its row is prefixed with the regression marker (the
ratio 0.0 is below 0.9) and the summary counts it as a regression. -/
theorem c6_zero_time_amended (mRes cRes : List (String × BenchRecord)) (bench : String)
    (qm qc : ℚ)
    (hm : timeOf mRes bench ≠ "N/A") (hc : timeOf cRes bench ≠ "N/A")
    (hpm : parse_time_to_ns (timeOf mRes bench) = some qm)
    (hpc : parse_time_to_ns (timeOf cRes bench) = some qc)
    (hz : qm = 0 ∨ qc = 0) :
    rowLine mRes cRes bench =
      some ("| `" ++ bench ++ "` | " ++ timeOf mRes bench ++ " | " ++
        timeOf cRes bench ++ " | " ++ (regressMark ++ " " ++ "N/A") ++ " |\n") ∧
    summaryCounts mRes cRes [bench] = some (0, 1, 0) ∧
    (∀ t : String, (∀ ch w, t.data = ch :: w → isDigitDot ch = false) →
      parse_time_to_ns t = some 0) := by
  have hcs : calculate_speedup qm qc = (0, "N/A") := calculate_speedup_zero qm qc hz
  have hcell : speedupCell qm qc = regressMark ++ " " ++ "N/A" := by
    unfold speedupCell
    rw [hcs, if_neg (by decide), if_pos (by decide)]
  refine ⟨?_, ?_, ?_⟩
  · have h1 : rowLine mRes cRes bench =
        some ("| `" ++ bench ++ "` | " ++ timeOf mRes bench ++ " | " ++
          timeOf cRes bench ++ " | " ++ speedupCell qm qc ++ " |\n") := by
      unfold rowLine
      rw [if_pos ⟨hm, hc⟩, hpm, hpc]
    rw [h1, hcell]
  · have hstep : summaryAux mRes cRes (0, 0, 0) [bench] =
        if timeOf mRes bench ≠ "N/A" ∧ timeOf cRes bench ≠ "N/A" then
          match parse_time_to_ns (timeOf mRes bench),
            parse_time_to_ns (timeOf cRes bench) with
          | some mns, some cns =>
            if 11 / 10 < (calculate_speedup mns cns).1 then
              summaryAux mRes cRes (0 + 1, 0, 0) []
            else if (calculate_speedup mns cns).1 < 9 / 10 then
              summaryAux mRes cRes (0, 0 + 1, 0) []
            else summaryAux mRes cRes (0, 0, 0 + 1) []
          | _, _ => none
        else summaryAux mRes cRes (0, 0, 0) [] := rfl
    show summaryAux mRes cRes (0, 0, 0) [bench] = some (0, 1, 0)
    rw [hstep, if_pos ⟨hm, hc⟩, hpm, hpc]
    show (if 11 / 10 < (calculate_speedup qm qc).1 then
        summaryAux mRes cRes (0 + 1, 0, 0) []
      else if (calculate_speedup qm qc).1 < 9 / 10 then
        summaryAux mRes cRes (0, 0 + 1, 0) []
      else summaryAux mRes cRes (0, 0, 0 + 1) []) = some (0, 1, 0)
    rw [hcs, if_neg (by decide), if_pos (by decide)]
    rfl
  · intro t hhead
    have hmt : matchTimeRegex t.data = none := by
      unfold matchTimeRegex
      have htw : t.data.takeWhile isDigitDot = [] := by
        cases hd : t.data with
        | nil => rfl
        | cons ch w =>
          exact List.takeWhile_cons_of_neg (by
            rw [hhead ch w hd]
            exact Bool.false_ne_true)
      rw [htw]
      rfl
    show (match matchTimeRegex t.data with
      | none => some 0
      | some (g1, g2) =>
        match pyFloat g1 with
        | none => none
        | some v => some (v * conversions (String.mk g2))) = some 0
    rw [hmt]

/-- C6 witness: the theorem applied to the concrete zero-time files. -/
theorem c6_zero_time_amended_witness :
    rowLine (parse_criterion_output mainC6) (parse_criterion_output currC6) "x" =
      some ("| `" ++ "x" ++ "` | " ++ timeOf (parse_criterion_output mainC6) "x" ++
        " | " ++ timeOf (parse_criterion_output currC6) "x" ++ " | " ++
        (regressMark ++ " " ++ "N/A") ++ " |\n") ∧
    summaryCounts (parse_criterion_output mainC6) (parse_criterion_output currC6)
      ["x"] = some (0, 1, 0) := by
  have h := c6_zero_time_amended (parse_criterion_output mainC6)
    (parse_criterion_output currC6) "x" 0 6 (by decide) (by decide) (by decide)
    (by decide) (Or.inl rfl)
  exact ⟨h.1, h.2.1⟩

theorem chooseCat_mem (b : String) : chooseCat b ∈ categoryNames := by
  unfold chooseCat
  rcases h : categoryNames.find? (fun cat => containsSubstr b cat) with _ | c
  · simp only []
    decide
  · simp only []
    exact List.mem_of_find?_eq_some h

theorem appendAt_map (g : String → List String) (key bench : String) :
    appendAt (categoryNames.map (fun c => (c, g c))) key bench =
      categoryNames.map (fun c => (c, if c = key then g c ++ [bench] else g c)) := by
  unfold appendAt
  rw [List.map_map]
  apply List.map_congr_left
  intro c _
  by_cases hc : c = key <;> simp [hc]

theorem categorize_go (benches : List String) :
    ∀ g : String → List String,
      benches.foldl (fun cats b => appendAt cats (chooseCat b) b)
          (categoryNames.map (fun c => (c, g c))) =
        categoryNames.map
          (fun c => (c, g c ++ benches.filter (fun b => decide (chooseCat b = c)))) := by
  induction benches with
  | nil =>
    intro g
    simp only [List.foldl_nil, List.filter_nil, List.append_nil]
  | cons b rest ih =>
    intro g
    rw [List.foldl_cons, appendAt_map, ih]
    apply List.map_congr_left
    intro c _
    by_cases hc : chooseCat b = c
    · rw [if_pos hc.symm, List.filter_cons,
        if_pos (by simp only [decide_eq_true_eq]; exact hc), List.append_assoc]
      rfl
    · rw [if_neg (fun h => hc h.symm), List.filter_cons,
        if_neg (by simp only [decide_eq_true_eq]; exact hc)]

/-- The categorization loop produces, for each category in declaration
order, the (order-preserving) filter of the input names assigned to it. -/
theorem categorize_eq (benches : List String) :
    categorize benches =
      categoryNames.map
        (fun c => (c, benches.filter (fun b => decide (chooseCat b = c)))) := by
  have h := categorize_go benches (fun _ => [])
  simpa [categorize] using h

theorem countP_eq_one_of_nodup_mem {x : String} :
    ∀ {l : List String}, l.Nodup → x ∈ l →
      l.countP (fun c => decide (x = c)) = 1 := by
  intro l hn hx
  induction l with
  | nil => cases hx
  | cons a t ih =>
    rcases List.mem_cons.mp hx with rfl | hmem
    · have hp : (fun c => decide (x = c)) x = true := by simp
      rw [List.countP_cons_of_pos _ t hp]
      have hz : t.countP (fun c => decide (x = c)) = 0 :=
        List.countP_eq_zero.mpr (fun c hc => by
          simp only [decide_eq_true_eq]
          rintro rfl
          exact (List.nodup_cons.mp hn).1 hc)
      rw [hz]
    · have ha : ¬ ((fun c => decide (x = c)) a = true) := by
        simp only [decide_eq_true_eq]
        rintro rfl
        exact (List.nodup_cons.mp hn).1 hmem
      rw [List.countP_cons_of_neg _ t ha]
      exact ih (List.nodup_cons.mp hn).2 hmem

theorem find?_first {p : String → Bool} :
    ∀ (pre : List String) (cat : String) (post : List String),
      p cat = true → (∀ x ∈ pre, p x = false) →
      (pre ++ cat :: post).find? p = some cat := by
  intro pre
  induction pre with
  | nil =>
    intro cat post h _
    simpa using List.find?_cons_of_pos _ h
  | cons x xs ih =>
    intro cat post h hpre
    rw [List.cons_append,
      List.find?_cons_of_neg _ (by simp [hpre x (List.mem_cons_self x xs)]),
      ih cat post h (fun y hy => hpre y (List.mem_cons_of_mem _ hy))]

/-- C5: for every pair of parsed mappings, categorization partitions the
sorted union of benchmark names: the bucket keys are the categories in
declaration order, a name is in some bucket iff it is in the union, each
name lies in exactly one bucket, membership in a bucket is exactly
assignment to that category, the assigned category is the first in
declaration order whose tag is a substring of the name, and a name matching
no tag is assigned `other`. -/
theorem c5_category_partition :
    ∀ mRes cRes : List (String × BenchRecord),
      ((categorize (allBenchmarks mRes cRes)).map Prod.fst = categoryNames) ∧
      (∀ bench, (∃ pair ∈ categorize (allBenchmarks mRes cRes), bench ∈ pair.2) ↔
        bench ∈ allBenchmarks mRes cRes) ∧
      (∀ bench ∈ allBenchmarks mRes cRes,
        (categorize (allBenchmarks mRes cRes)).countP (fun kv => decide (bench ∈ kv.2)) = 1) ∧
      (∀ bench pair, pair ∈ categorize (allBenchmarks mRes cRes) →
        (bench ∈ pair.2 ↔ bench ∈ allBenchmarks mRes cRes ∧ pair.1 = chooseCat bench)) ∧
      (∀ bench pre cat post, categoryNames = pre ++ cat :: post →
        containsSubstr bench cat = true →
        (∀ x ∈ pre, containsSubstr bench x = false) →
        chooseCat bench = cat) ∧
      (∀ bench, (∀ x ∈ categoryNames, containsSubstr bench x = false) →
        chooseCat bench = "other") := by
  intro mRes cRes
  refine ⟨?_, ?_, ?_, ?_, ?_, ?_⟩
  · rw [categorize_eq, List.map_map]
    rfl
  · intro bench
    rw [categorize_eq]
    constructor
    · rintro ⟨pair, hp, hb⟩
      obtain ⟨c, _, rfl⟩ := List.mem_map.mp hp
      exact (List.mem_filter.mp hb).1
    · intro hb
      refine ⟨(chooseCat bench, (allBenchmarks mRes cRes).filter
        (fun b => decide (chooseCat b = chooseCat bench))), ?_, ?_⟩
      · exact List.mem_map.mpr ⟨chooseCat bench, chooseCat_mem bench, rfl⟩
      · exact List.mem_filter.mpr ⟨hb, by simp⟩
  · intro bench hb
    rw [categorize_eq, List.countP_map]
    rw [List.countP_congr (fun c _ => ?_)]
    · exact countP_eq_one_of_nodup_mem (by decide) (chooseCat_mem bench)
    · show (decide (bench ∈ (allBenchmarks mRes cRes).filter
        (fun b => decide (chooseCat b = c))) = true) ↔ (decide (chooseCat bench = c) = true)
      simp only [decide_eq_true_eq, List.mem_filter, decide_eq_true_eq]
      exact ⟨fun h => h.2, fun h => ⟨hb, h⟩⟩
  · intro bench pair hp
    rw [categorize_eq] at hp
    obtain ⟨c, _, rfl⟩ := List.mem_map.mp hp
    simp only [List.mem_filter, decide_eq_true_eq]
    exact ⟨fun h => ⟨h.1, h.2.symm⟩, fun h => ⟨h.1, h.2.symm⟩⟩
  · intro bench pre cat post hsplit hcat hpre
    unfold chooseCat
    rw [hsplit, find?_first pre cat post hcat hpre]
  · intro bench hall
    unfold chooseCat
    rw [List.find?_eq_none.mpr (fun x hx => by simp [hall x hx])]

/-- C5 witness: the theorem applied to concrete mappings, with the
first-match and fallthrough parts at concrete splits. -/
theorem c5_category_partition_witness :
    ("zzz" ∈ (("other", ["zzz"]) : String × List String).2 ↔
      "zzz" ∈ allBenchmarks [("zzz", ⟨"1ns", "1ns"⟩)] [] ∧
      ("other", ["zzz"]).1 = chooseCat "zzz") ∧
    chooseCat "a_cow_clone_b" = "cow_clone" ∧
    chooseCat "zzz" = "other" := by
  refine ⟨(c5_category_partition [("zzz", ⟨"1ns", "1ns"⟩)] []).2.2.2.1 "zzz"
    ("other", ["zzz"]) (by decide), ?_, ?_⟩
  · exact (c5_category_partition [] []).2.2.2.2.1 "a_cow_clone_b"
      ["prefix_fast_path", "bulk_insertion"] "cow_clone"
      ["pattern_matching", "rule_matching", "type_lookup", "evaluation",
        "scalability", "other"] (by decide) (by decide) (by decide)
  · exact (c5_category_partition [] []).2.2.2.2.2 "zzz" (by decide)

/-- C8: the program is deterministic — the output depends only on the two
file contents; within each category the rows follow the sorted benchmark
list, and the categories appear in fixed declaration order. -/
theorem c8_deterministic_output :
    (∀ prog a b fs1 fs2, fs1 a = fs2 a → fs1 b = fs2 b →
      runMain [prog, a, b] fs1 = runMain [prog, a, b] fs2) ∧
    (∀ mRes cRes pair, pair ∈ categorize (allBenchmarks mRes cRes) →
      pair.2.Sorted (· ≤ ·)) ∧
    (∀ mRes cRes, (categorize (allBenchmarks mRes cRes)).map Prod.fst = categoryNames) := by
  refine ⟨?_, ?_, ?_⟩
  · intro prog a b fs1 fs2 h1 h2
    show (match fs1 a, fs1 b with
      | some mc, some cc =>
        match genReport a b mc cc with
        | some out => some (⟨0, out, ""⟩ : ProcResult)
        | none => none
      | _, _ => none) =
      (match fs2 a, fs2 b with
      | some mc, some cc =>
        match genReport a b mc cc with
        | some out => some (⟨0, out, ""⟩ : ProcResult)
        | none => none
      | _, _ => none)
    rw [h1, h2]
  · intro mRes cRes pair hp
    rw [categorize_eq] at hp
    obtain ⟨c, _, rfl⟩ := List.mem_map.mp hp
    show ((allBenchmarks mRes cRes).filter _).Sorted (· ≤ ·)
    unfold allBenchmarks
    exact (List.sorted_insertionSort (· ≤ ·) _).sublist (List.filter_sublist _)
  · intro mRes cRes
    rw [categorize_eq, List.map_map]
    rfl

/-- C8 witness: the theorem applied at concrete inputs. -/
theorem c8_deterministic_output_witness :
    runMain ["p", "a", "b"] (fun _ => some "") =
      runMain ["p", "a", "b"] (fun _ => some "") ∧
    (("other", ["x"]) : String × List String).2.Sorted (· ≤ ·) :=
  ⟨c8_deterministic_output.1 "p" "a" "b" _ _ rfl rfl,
   c8_deterministic_output.2.1 [("x", ⟨"1ns", "1ns"⟩)] [] ("other", ["x"]) (by decide)⟩

/-- C7 amended: exactly two positional arguments are required — any other
count prints the usage line on the error stream and exits 1; with two
readable files whose report generation completes (no `ValueError` from a
malformed stored time), it prints the report and exits 0. -/
theorem c7_exit_codes :
    (∀ prog args fs, args.length ≠ 2 →
      runMain (prog :: args) fs = some ⟨1, "", usageLine⟩) ∧
    (∀ fs, runMain [] fs = some ⟨1, "", usageLine⟩) ∧
    (∀ prog a b fs mc cc rep, fs a = some mc → fs b = some cc →
      genReport a b mc cc = some rep →
      runMain [prog, a, b] fs = some ⟨0, rep, ""⟩) := by
  refine ⟨?_, ?_, ?_⟩
  · intro prog args fs h
    match args with
    | [] => rfl
    | [_] => rfl
    | [_, _] => exact absurd rfl h
    | _ :: _ :: _ :: _ => rfl
  · intro fs; rfl
  · intro prog a b fs mc cc rep h1 h2 h3
    have hu : runMain [prog, a, b] fs =
        match fs a, fs b with
        | some mc, some cc =>
          match genReport a b mc cc with
          | some out => some ⟨0, out, ""⟩
          | none => none
        | _, _ => none := rfl
    rw [hu, h1, h2]
    show (match genReport a b mc cc with
      | some out => some ⟨0, out, ""⟩
      | none => none) = some (⟨0, rep, ""⟩ : ProcResult)
    rw [h3]

/-- C7 witness: three arguments exit 1 with the usage line; two empty
readable files exit 0 with the (empty-table) report. -/
theorem c7_exit_codes_witness :
    runMain ["p", "x", "y", "z"] (fun _ => some "") = some ⟨1, "", usageLine⟩ ∧
    runMain ["p", "a", "b"] (fun _ => some "") = some ⟨0, emptyReport, ""⟩ :=
  ⟨c7_exit_codes.1 "p" ["x", "y", "z"] _ (by decide),
   c7_exit_codes.2.2 "p" "a" "b" _ "" "" emptyReport rfl rfl (by decide)⟩

/-- C9: on `"1.2.3 ns"` the time regex matches with group 1 `"1.2.3"`, and
`float("1.2.3")` raises `ValueError` (two dots), so `parse_time_to_ns` does
not return a value; likewise for `". ns"` (no digit).  The function is not
total: the uncaught exception is modelled by `none`. -/
theorem c9_float_value_error :
    matchTimeRegex "1.2.3 ns".data = some ("1.2.3".data, "ns".data) ∧
    pyFloat "1.2.3".data = none ∧
    parse_time_to_ns "1.2.3 ns" = none ∧
    parse_time_to_ns ". ns" = none := by
  refine ⟨?_, ?_, ?_, ?_⟩ <;> decide

/-- C10 counterexample: the claim quantifies over every time string made of
digits only; for the single-digit string `"7"` the regex cannot split a
number and a unit, the match fails, and the function returns 0.0 — not a
nonzero value as the claim asserts. -/
theorem c10_single_digit_counterexample :
    parse_time_to_ns "7" = some 0 := by decide

/-- C3 counterexample: the microsecond key in the source is the mojibake
`"Âµs"`, so the genuine spelling `"10 µs"` hits the unrecognized-unit
default and yields 10.0, not 10000.0. -/
theorem c3_microsecond_counterexample :
    parse_time_to_ns "10 µs" = some 10 ∧ parse_time_to_ns "10 µs" ≠ some 10000 := by
  refine ⟨?_, ?_⟩ <;> decide

/-- C7 counterexample: with exactly two readable file arguments whose
content stores the time token `1.2.3ns`, `float()` raises and the process
does not exit with status 0 (it crashes; modelled by `none`). -/
theorem c7_readable_files_crash :
    runMain ["analyze_benchmark_results.py", "main.txt", "current.txt"]
      (fun _ => some poisoned) = none := by decide

/-- C1 at the specification's end-to-end input: splitting
`10 ns 12 ns 14 ns` on whitespace makes `times[1]` the literal `"ns"` (the
first value's unit), not the median `12 ns`; both sides then normalize to
0.0, the row reads `| foo/bar/10 | ns | ns | <regression marker> N/A |`,
and the summary counts one regression (ratio 0.0 < 0.9) and prints the
warning line — not one improvement with a success message. -/
theorem c1_end_to_end_failing_input :
    parse_criterion_output mainC1 =
      [("foo/bar/10", ⟨"ns", "10 ns 12 ns 14 ns"⟩)] ∧
    parse_criterion_output currC1 =
      [("foo/bar/10", ⟨"ns", "5 ns 6 ns 7 ns"⟩)] ∧
    rowLine (parse_criterion_output mainC1) (parse_criterion_output currC1) "foo/bar/10" =
      some ("| `foo/bar/10` | ns | ns | " ++ (regressMark ++ " " ++ "N/A") ++ " |\n") ∧
    summaryCounts (parse_criterion_output mainC1) (parse_criterion_output currC1)
        (allBenchmarks (parse_criterion_output mainC1) (parse_criterion_output currC1)) =
      some (0, 1, 0) ∧
    genReport "m.txt" "c.txt" mainC1 currC1 = some reportC1 := by
  refine ⟨?_, ?_, ?_, ?_, ?_⟩ <;> decide

/-- C6 counterexample: a benchmark whose main-side time string `"b"`
normalizes to 0.0 is not treated like a missing benchmark: its row carries
the regression marker and the summary counts it as a regression, while the
genuinely missing benchmark gets a bare `N/A` and no count. -/
theorem c6_zero_time_counterexample :
    parse_time_to_ns "b" = some 0 ∧
    rowLine (parse_criterion_output mainC6) (parse_criterion_output currC6) "x" =
      some ("| `x` | b | 6ns | " ++ (regressMark ++ " " ++ "N/A") ++ " |\n") ∧
    summaryCounts (parse_criterion_output mainC6) (parse_criterion_output currC6) ["x"] =
      some (0, 1, 0) ∧
    rowLine (parse_criterion_output "") (parse_criterion_output currC6) "x" =
      some "| `x` | N/A | 6ns | N/A |\n" ∧
    summaryCounts (parse_criterion_output "") (parse_criterion_output currC6) ["x"] =
      some (0, 0, 0) ∧
    summaryCounts (parse_criterion_output mainC6) (parse_criterion_output currC6) ["x"] ≠
      summaryCounts (parse_criterion_output "") (parse_criterion_output currC6) ["x"] := by
  refine ⟨?_, ?_, ?_, ?_, ?_, ?_⟩ <;> decide

end BenchAnalyze
